import Mathlib

/-!
Verification of the draw-call batching engine of `nae-gfx` (`src/batchers.rs`)
against its natural-language specification.  The source file is embedded
shallowly: the capacity policy (`max_vertices`, `batch_vertices`) becomes pure
arithmetic on `Nat`, the `ColorBatcher` becomes a state record over flat `List`
storages, and every backend invocation performed by `flush` is recorded in an
explicit trace of `GfxOp` values, so that flush cadence, draw counts and bound
buffer contents are all observable in the theorems below.  `f32` scalars are
modelled by `ℚ` (the only arithmetic any claim exercises — identity transforms
and multiplication by 0 and 1 — is exact in `f32`), `u32` values by `Nat` with
explicit reduction modulo `2 ^ 32` where the source casts or adds.
-/

namespace Notan

/-- Modelled from the spec: the graphics API (declared in `nae-core`, outside
`src/`) only matters to the batcher through the index width of the target,
16-bit for WebGL and 32-bit for everything else, so two representatives
suffice. -/
inductive GraphicsAPI where
  | webGl
  | openGl
deriving DecidableEq

/-- Embeds `max_vertices` (batchers.rs, lines 17-23): the platform ceiling is
`u16::MAX` on WebGL targets and `u32::MAX` otherwise. -/
def max_vertices (api : GraphicsAPI) : Nat :=
  match api with
  | GraphicsAPI.webGl => 65535
  | _ => 2 ^ 32 - 1

/-- Scanning loop of `batch_vertices` (batchers.rs, lines 29-39): from the fuel
value downward, return the first `n` divisible by both the stride and 3, or 0
when the scan is exhausted.  The source runs the divisibility tests in `f32`;
every quantity involved is an integer not exceeding 65535 and the strides in
use are at most 32, a range on which `f32` conversion and remainder are exact,
so `Nat.mod` is a faithful translation.  For stride 0 the source computes
`nf % 0.0`, which is NaN and never compares equal to `0.0`; correspondingly
`n % 0 = n ≠ 0` here for every `n > 0`, so both scans run to exhaustion. -/
def batchScan (offset : Nat) : Nat → Nat
  | 0 => 0
  | n + 1 => if (n + 1) % offset = 0 ∧ (n + 1) % 3 = 0 then n + 1 else batchScan offset n

/-- Embeds `batch_vertices` (batchers.rs, lines 25-42): the scan starts at
`u16::MAX = 65535`. -/
def batch_vertices (offset : Nat) : Nat :=
  batchScan offset 65535

/-- Modelled from the spec: a color with four channels, as packed by the
batcher (`Color` is declared in `nae-core`, outside `src/`); `to_rgba` unpacks
the channels in order r, g, b, a. -/
structure Color where
  r : ℚ
  g : ℚ
  b : ℚ
  a : ℚ
deriving DecidableEq

/-- Channel unpacking `Color::to_rgba`. -/
def Color.to_rgba (c : Color) : ℚ × ℚ × ℚ × ℚ :=
  (c.r, c.g, c.b, c.a)

/-- Modelled from the spec: a 4×4 transform matrix (`Matrix4` is declared
outside `src/`). -/
structure Matrix4 where
  m00 : ℚ
  m01 : ℚ
  m02 : ℚ
  m03 : ℚ
  m10 : ℚ
  m11 : ℚ
  m12 : ℚ
  m13 : ℚ
  m20 : ℚ
  m21 : ℚ
  m22 : ℚ
  m23 : ℚ
  m30 : ℚ
  m31 : ℚ
  m32 : ℚ
  m33 : ℚ
deriving DecidableEq

/-- Modelled from the spec: `matrix4_mul_vector4` (declared outside `src/`)
applies the 4×4 transform to a homogeneous point.  Only the identity matrix is
exercised by the claims, for which the row/column-major convention is
immaterial and `f32` arithmetic is exact. -/
def matrix4_mul_vector4 (m : Matrix4) (v : ℚ × ℚ × ℚ × ℚ) : ℚ × ℚ × ℚ × ℚ :=
  match v with
  | (x, y, z, w) =>
    (m.m00 * x + m.m01 * y + m.m02 * z + m.m03 * w,
     m.m10 * x + m.m11 * y + m.m12 * z + m.m13 * w,
     m.m20 * x + m.m21 * y + m.m22 * z + m.m23 * w,
     m.m30 * x + m.m31 * y + m.m32 * z + m.m33 * w)

/-- The identity transform. -/
def identityMatrix : Matrix4 :=
  ⟨1, 0, 0, 0, 0, 1, 0, 0, 0, 0, 1, 0, 0, 0, 0, 1⟩

/-- Modelled from the spec: blend modes (declared in `nae-core`, outside
`src/`) are only ever compared for equality by the batcher, so two
representative modes suffice. -/
inductive BlendMode where
  | normal
  | additive
deriving DecidableEq

/-- Modelled from the spec: one Draw Request, restricted to exactly the fields
`push_data` reads (`DrawData` is declared outside `src/`).  Index entries are
`u32` values, raw vertices are flat `f32` scalars, three per vertex. -/
structure DrawData where
  indices : List Nat
  vertices : List ℚ
  color : Color
  matrix : Matrix4
  alpha : ℚ
  blend : Option BlendMode
  projection : Matrix4
deriving DecidableEq

/-- One call to the graphics backend, as issued by `flush` (batchers.rs,
lines 284-288); payloads record what was bound. -/
inductive GfxOp where
  | setPipeline (blend : Option BlendMode)
  | bindVertexBuffer (data : List ℚ)
  | bindIndexBuffer (data : List Nat)
  | bindUniform (projection : Matrix4)
  | draw (start : Nat) (count : Nat)
deriving DecidableEq

/-- State of `ColorBatcher` (batchers.rs, lines 110-120): the growable CPU-side
storages, the write cursor `index`, the capacity parameters, the vertex stride
(`vbo.offset()`, 7 scalars for the Float3+Float4 color layout) and the
pipeline's blend mode (`pipeline.options.color_blend`).  The GPU handles
(shader, pipeline object, buffer objects, uniform locations) carry no batching
state and are omitted. -/
structure ColorBatcher where
  vertices : List ℚ
  indices : List Nat
  index : Nat
  max_vertices : Nat
  batch_size : Nat
  offset : Nat
  blend : Option BlendMode
deriving DecidableEq

/-- Embeds the batching state set up by `ColorBatcher::new` (batchers.rs,
lines 123-164): both storages are zero-filled at the initial batch size for
stride 7, the cursor starts at 0 and the pipeline is created with
`BlendMode::NORMAL`. -/
def ColorBatcher.new (maxVertices : Nat) : ColorBatcher :=
  let batch_size := batch_vertices 7
  { vertices := List.replicate batch_size 0,
    indices := List.replicate (batch_size / 7) 0,
    index := 0,
    max_vertices := maxVertices,
    batch_size := batch_size,
    offset := 7,
    blend := some BlendMode.normal }

/-- State of `ImageBatcher` (batchers.rs, lines 45-57), batching fields only;
its stride is 9 (Float3+Float4+Float2). -/
structure ImageBatcher where
  vertices : List ℚ
  indices : List Nat
  index : Nat
  max_vertices : Nat
  batch_size : Nat
  offset : Nat
deriving DecidableEq

/-- Embeds the batching state set up by `ImageBatcher::new` (batchers.rs,
lines 60-106). -/
def ImageBatcher.new (maxVertices : Nat) : ImageBatcher :=
  let batch_size := batch_vertices 9
  { vertices := List.replicate batch_size 0,
    indices := List.replicate (batch_size / 9) 0,
    index := 0,
    max_vertices := maxVertices,
    batch_size := batch_size,
    offset := 9 }

/-- Embeds `ColorBatcher::flush` (batchers.rs, lines 279-290): a no-op at
cursor 0, otherwise it binds pipeline, both buffers and the projection uniform,
issues one draw over `0..index`, and resets the cursor. -/
def flush (b : ColorBatcher) (projection : Matrix4) : ColorBatcher × List GfxOp :=
  if b.index = 0 then (b, [])
  else
    ({ b with index := 0 },
     [GfxOp.setPipeline b.blend,
      GfxOp.bindVertexBuffer b.vertices,
      GfxOp.bindIndexBuffer b.indices,
      GfxOp.bindUniform projection,
      GfxOp.draw 0 b.index])

/-- Index-write loop of `push_vertices` (batchers.rs, lines 251-253):
`self.indices[self.index + i] = self.index as u32 + indices[i]`.  The `usize`
to `u32` cast and the wrapping `u32` addition are combined into one reduction
modulo `2 ^ 32`.  An out-of-range store panics in the source; here it is a
no-op (`List.set` out of bounds), and every claim stays within bounds. -/
def writeIndices (base : Nat) : List Nat → Nat → List Nat → List Nat
  | [], _, store => store
  | v :: rest, pos, store =>
      writeIndices base rest (pos + 1) (store.set pos ((base + v) % 2 ^ 32))

/-- Vertex-write loop of `push_vertices` (batchers.rs, lines 255-274): walk the
raw scalars three at a time, transform `(x, y, z, 1)`, store the transformed
coordinates followed by `r, g, b, a * alpha` at the write offset, and advance
the offset by the stride.  A trailing group of fewer than three scalars makes
the source panic on the slice read; it is left unwritten here, and no claim
reaches that case. -/
def writeVertices (off : Nat) (m : Matrix4) (r g bc a alpha : ℚ) :
    List ℚ → Nat → List ℚ → List ℚ
  | x :: y :: z :: rest, pos, store =>
      match matrix4_mul_vector4 m (x, y, z, 1) with
      | (tx, ty, tz, _) =>
          writeVertices off m r g bc a alpha rest (pos + off)
            (((((((store.set pos tx).set (pos + 1) ty).set (pos + 2) tz).set
                (pos + 3) r).set (pos + 4) g).set (pos + 5) bc).set
                (pos + 6) (a * alpha))
  | _, _, store => store

/-- Embeds `ColorBatcher::push_vertices` (batchers.rs, lines 243-277). -/
def push_vertices (b : ColorBatcher) (indices : List Nat) (vertices : List ℚ)
    (color : Color) (matrix : Matrix4) (alpha : ℚ) : ColorBatcher :=
  match Color.to_rgba color with
  | (r, g, bc, a) =>
    { b with
      indices := writeIndices b.index indices b.index b.indices,
      vertices := writeVertices b.offset matrix r g bc a alpha vertices
        (b.index * b.offset) b.vertices,
      index := b.index + indices.length }

/-- Behaviour of `Vec::resize(new_len, value)`: truncate or pad with `value`
so that the result has exactly `new_len` elements. -/
def resizeList (xs : List α) (n : Nat) (v : α) : List α :=
  if n ≤ xs.length then xs.take n else xs ++ List.replicate (n - xs.length) v

/-- Embeds `ColorBatcher::check_batch_size` (batchers.rs, lines 166-186): when
another increment still fits under `max_vertices` and the incoming request is
larger than the index storage or would run past its end, flush and grow both
storages.  The debug log line has no effect on the state. -/
def check_batch_size (b : ColorBatcher) (data : DrawData) :
    ColorBatcher × List GfxOp :=
  let next_size := b.vertices.length + b.batch_size
  let can_be_bigger := next_size < b.max_vertices
  if can_be_bigger then
    let is_bigger := b.indices.length < data.indices.length
    let is_more := b.indices.length ≤ b.index + data.indices.length
    if is_bigger ∨ is_more then
      let fl := flush b data.projection
      let index_next_size := next_size / b.offset
      ({ fl.1 with
          vertices := resizeList fl.1.vertices next_size 0,
          indices := resizeList fl.1.indices index_next_size 0 }, fl.2)
    else (b, [])
  else (b, [])

/-- Loop of `ColorBatcher::split_batch` (batchers.rs, lines 224-240), recursing
over the remaining iteration count with `i` the current iteration number.  The
scratch index buffer slice `indices[0..end - start]` passed to `push_vertices`
holds exactly the values `v - start` for `v` in `start..end` written by the
inner loop (cast to `u32`), and the vertex slice is
`data.vertices[start * 3..end * 3]`. -/
def split_loop (data : DrawData) : Nat → Nat → ColorBatcher → ColorBatcher × List GfxOp
  | _, 0, b => (b, [])
  | i, count + 1, b =>
      let start := i * b.indices.length
      let e := min (start + b.indices.length) data.indices.length
      let chunkIdx := (List.range' start (e - start)).map (fun v => (v - start) % 2 ^ 32)
      let b1 := push_vertices b chunkIdx
        ((data.vertices.drop (start * 3)).take ((e - start) * 3))
        data.color data.matrix data.alpha
      let fl := flush b1 data.projection
      let rest := split_loop data (i + 1) count fl.1
      (rest.1, fl.2 ++ rest.2)

/-- Embeds `ColorBatcher::split_batch` (batchers.rs, lines 218-241): the
iteration count is `data.indices.len() / self.indices.len() + 1`, fixed before
the loop starts. -/
def split_batch (b : ColorBatcher) (data : DrawData) : ColorBatcher × List GfxOp :=
  split_loop data 0 (data.indices.length / b.indices.length + 1) b

/-- Embeds `ColorBatcher::push_data` (batchers.rs, lines 188-216): grow if
possible and needed, split a request larger than the index storage, flush on
fullness, flush on a blend-mode change (adopting the new mode), then append. -/
def push_data (b : ColorBatcher) (data : DrawData) : ColorBatcher × List GfxOp :=
  let cbs := check_batch_size b data
  let b0 := cbs.1
  if b0.indices.length < data.indices.length then
    let sp := split_batch b0 data
    (sp.1, cbs.2 ++ sp.2)
  else
    let next_index := b0.index + data.indices.length
    let fl1 := if b0.indices.length ≤ next_index then flush b0 data.projection else (b0, [])
    let b1 := fl1.1
    let fl2 :=
      if b1.blend ≠ data.blend then
        let f := flush b1 data.projection
        ({ f.1 with blend := data.blend }, f.2)
      else (b1, [])
    let b2 := fl2.1
    (push_vertices b2 data.indices data.vertices data.color data.matrix data.alpha,
     cbs.2 ++ fl1.2 ++ fl2.2)

/-- Folds `push_data` over a sequence of draw requests, keeping the state. -/
def pushSeq (b : ColorBatcher) (ds : List DrawData) : ColorBatcher :=
  ds.foldl (fun s d => (push_data s d).1) b

/-- Spec observer `capacity_vertices`: Vertex Storage length in vertex
records. -/
def capacity_vertices (b : ColorBatcher) : Nat :=
  b.vertices.length / b.offset

/-- Spec observer `capacity_indices`: Index Storage length in entries. -/
def capacity_indices (b : ColorBatcher) : Nat :=
  b.indices.length

/-- The index counts of the draw calls contained in a backend call trace. -/
def drawCounts (ops : List GfxOp) : List Nat :=
  ops.filterMap (fun op => match op with | GfxOp.draw _ n => some n | _ => none)

/-- Caller contract on a Draw Request (spec section 6): every index value
references an existing raw vertex record, and the index count equals the
vertex-record count. -/
def Contract (d : DrawData) : Prop :=
  (∀ i ∈ d.indices, i < d.vertices.length / 3) ∧
  d.vertices.length = 3 * d.indices.length

instance (d : DrawData) : Decidable (Contract d) := by
  unfold Contract
  exact inferInstance

/-- The state reached by the growth branch of `check_batch_size`: flushed
cursor, both storages resized by one increment. -/
def grownState (b : ColorBatcher) : ColorBatcher :=
  { b with
    index := 0,
    vertices := resizeList b.vertices (b.vertices.length + b.batch_size) 0,
    indices := resizeList b.indices ((b.vertices.length + b.batch_size) / b.offset) 0 }

/-- The storage dimensions and immutable configuration of a batcher, bundled
so that preservation arguments are one rewrite. -/
def dims (b : ColorBatcher) : Nat × Nat × Nat × Nat × Nat :=
  (b.vertices.length, b.indices.length, b.offset, b.max_vertices, b.batch_size)

/-- The state reached by one `split_batch` iteration that starts at cursor 0
and consumes the chunk of `r` indices beginning at request position `s`:
the first `r` index slots hold the remapped values `0..r-1`, the transformed
chunk vertices are written from slot 0, and the cursor is reset by the
trailing flush. -/
def chunkState (b : ColorBatcher) (d : DrawData) (s r : Nat) : ColorBatcher :=
  { b with
    indices := List.range r ++ b.indices.drop r,
    vertices := writeVertices b.offset d.matrix d.color.r d.color.g d.color.b
      d.color.a d.alpha ((d.vertices.drop (s * 3)).take (r * 3)) 0 b.vertices,
    index := 0 }

/-- Invariant carried through `push_data` for the index-value bound of the
spec: the ceiling field is the platform ceiling, the cursor never runs past
the index storage, the index storage never outgrows the ceiling, and every
stored index value is at most the ceiling. -/
def IndexInv (M : Nat) (b : ColorBatcher) : Prop :=
  b.max_vertices = M ∧ b.index ≤ b.indices.length ∧
  b.indices.length ≤ M ∧ ∀ v ∈ b.indices, v ≤ M

/-- A small concrete batcher state used to evaluate the theorems: capacity of
3 index entries (21 scalars at stride 7), cursor 0, ceiling already reached so
no growth is possible. -/
def sampleBatcher : ColorBatcher :=
  { vertices := List.replicate 21 0,
    indices := List.replicate 3 0,
    index := 0,
    max_vertices := 1,
    batch_size := 0,
    offset := 7,
    blend := some BlendMode.normal }

/-- A concrete oversized request whose index count is an exact multiple
(2 × 3) of `sampleBatcher`'s index capacity. -/
def sampleSplitRequest : DrawData :=
  { indices := List.replicate 6 0,
    vertices := List.replicate 18 0,
    color := ⟨1, 1, 1, 1⟩,
    matrix := identityMatrix,
    alpha := 1,
    blend := some BlendMode.normal,
    projection := identityMatrix }

/-- A concrete oversized request with index count 2 × 3 + 1. -/
def sampleOddSplitRequest : DrawData :=
  { indices := List.replicate 7 0,
    vertices := List.replicate 21 0,
    color := ⟨1, 1, 1, 1⟩,
    matrix := identityMatrix,
    alpha := 1,
    blend := some BlendMode.normal,
    projection := identityMatrix }

/-- A concrete small request whose blend mode differs from
`sampleBatcher`'s active blend mode. -/
def sampleBlendRequest : DrawData :=
  { indices := [0],
    vertices := [0, 0, 0],
    color := ⟨1, 1, 1, 1⟩,
    matrix := identityMatrix,
    alpha := 1,
    blend := some BlendMode.additive,
    projection := identityMatrix }

theorem batchScan_le (offset : Nat) : ∀ n, batchScan offset n ≤ n := by
  intro n
  induction n with
  | zero => simp [batchScan]
  | succ k ih =>
    simp only [batchScan]
    split
    · exact Nat.le_refl _
    · exact Nat.le_trans ih (Nat.le_succ k)

theorem batchScan_divides (offset : Nat) :
    ∀ n, batchScan offset n = 0 ∨
      (batchScan offset n % offset = 0 ∧ batchScan offset n % 3 = 0) := by
  intro n
  induction n with
  | zero => simp [batchScan]
  | succ k ih =>
    simp only [batchScan]
    split
    · right; assumption
    · exact ih

theorem batchScan_greatest (offset : Nat) :
    ∀ n m, m ≤ n → m % offset = 0 → m % 3 = 0 → 0 < m → m ≤ batchScan offset n := by
  intro n
  induction n with
  | zero => intro m hm _ _ hpos; omega
  | succ k ih =>
    intro m hm h1 h2 hpos
    simp only [batchScan]
    split
    · exact hm
    · rename_i hcond
      apply ih m _ h1 h2 hpos
      rcases Nat.lt_or_ge m (k + 1) with h | h
      · omega
      · exfalso
        have : m = k + 1 := Nat.le_antisymm hm h
        exact hcond (by rw [← this]; exact ⟨h1, h2⟩)

/-- C2: for every stride in `1..=32`, `batch_vertices stride` is divisible by
the stride and by 3, does not exceed 65535, and is the greatest value with
these properties. -/
theorem batch_vertices_greatest_valid (stride : Nat)
    (h1 : 1 ≤ stride) (h2 : stride ≤ 32) :
    batch_vertices stride % stride = 0 ∧
    batch_vertices stride % 3 = 0 ∧
    batch_vertices stride ≤ 65535 ∧
    ∀ m, m ≤ 65535 → m % stride = 0 → m % 3 = 0 → m ≤ batch_vertices stride := by
  have hwit : 3 * stride ≤ batchScan stride 65535 := by
    apply batchScan_greatest stride 65535 (3 * stride) (by omega)
    · simp [Nat.mul_mod_right]
    · simp [Nat.mul_mod_right, Nat.mul_mod]
    · omega
  have hpos : 0 < batchScan stride 65535 := by omega
  have hdiv := batchScan_divides stride 65535
  rcases hdiv with h0 | ⟨ha, hb⟩
  · omega
  · refine ⟨ha, hb, batchScan_le stride 65535, ?_⟩
    intro m hm hms hm3
    rcases Nat.eq_zero_or_pos m with h0 | hmp
    · omega
    · exact batchScan_greatest stride 65535 m hm hms hm3 hmp

/-- Witness for C2 at stride 7 (the color batcher's layout). -/
theorem batch_vertices_greatest_valid_witness :
    (1 ≤ 7 ∧ 7 ≤ 32) ∧
    (batch_vertices 7 % 7 = 0 ∧
     batch_vertices 7 % 3 = 0 ∧
     batch_vertices 7 ≤ 65535 ∧
     ∀ m, m ≤ 65535 → m % 7 = 0 → m % 3 = 0 → m ≤ batch_vertices 7) :=
  ⟨⟨by decide, by decide⟩, batch_vertices_greatest_valid 7 (by decide) (by decide)⟩

theorem batchScan_offset_zero : ∀ n, batchScan 0 n = 0 := by
  intro n
  induction n with
  | zero => simp [batchScan]
  | succ k ih =>
    simp only [batchScan]
    split
    · rename_i hcond
      omega
    · exact ih

/-- C9 counterexample: called with stride 0, `batch_vertices` does not fail
with any error — it terminates normally and returns the value 0 (the scan runs
to exhaustion because `NaN != 0.0` at every step). -/
theorem batch_vertices_zero_returns :
    batch_vertices 0 = 0 :=
  batchScan_offset_zero 65535


theorem flush_fst (b : ColorBatcher) (p : Matrix4) :
    (flush b p).1 = { b with index := 0 } := by
  by_cases h : b.index = 0
  · simp only [flush, h, if_pos]
    cases b
    simp_all
  · simp [flush, h]

theorem flush_of_zero {b : ColorBatcher} (p : Matrix4) (h : b.index = 0) :
    flush b p = (b, []) := by
  simp [flush, h]

theorem flush_of_ne {b : ColorBatcher} (p : Matrix4) (h : b.index ≠ 0) :
    flush b p =
      ({ b with index := 0 },
       [GfxOp.setPipeline b.blend,
        GfxOp.bindVertexBuffer b.vertices,
        GfxOp.bindIndexBuffer b.indices,
        GfxOp.bindUniform p,
        GfxOp.draw 0 b.index]) := by
  simp [flush, h]

@[simp] theorem push_vertices_index (b : ColorBatcher) (i : List Nat) (v : List ℚ)
    (c : Color) (m : Matrix4) (a : ℚ) :
    (push_vertices b i v c m a).index = b.index + i.length := rfl

@[simp] theorem push_vertices_blend (b : ColorBatcher) (i : List Nat) (v : List ℚ)
    (c : Color) (m : Matrix4) (a : ℚ) :
    (push_vertices b i v c m a).blend = b.blend := rfl

@[simp] theorem push_vertices_offset (b : ColorBatcher) (i : List Nat) (v : List ℚ)
    (c : Color) (m : Matrix4) (a : ℚ) :
    (push_vertices b i v c m a).offset = b.offset := rfl

@[simp] theorem push_vertices_max (b : ColorBatcher) (i : List Nat) (v : List ℚ)
    (c : Color) (m : Matrix4) (a : ℚ) :
    (push_vertices b i v c m a).max_vertices = b.max_vertices := rfl

@[simp] theorem push_vertices_batch_size (b : ColorBatcher) (i : List Nat) (v : List ℚ)
    (c : Color) (m : Matrix4) (a : ℚ) :
    (push_vertices b i v c m a).batch_size = b.batch_size := rfl

theorem push_vertices_indices (b : ColorBatcher) (i : List Nat) (v : List ℚ)
    (c : Color) (m : Matrix4) (a : ℚ) :
    (push_vertices b i v c m a).indices = writeIndices b.index i b.index b.indices := rfl

theorem push_vertices_vertices (b : ColorBatcher) (i : List Nat) (v : List ℚ)
    (c : Color) (m : Matrix4) (a : ℚ) :
    (push_vertices b i v c m a).vertices =
      writeVertices b.offset m c.r c.g c.b c.a a v (b.index * b.offset) b.vertices := rfl

@[simp] theorem length_writeIndices (base : Nat) :
    ∀ (idxs : List Nat) (pos : Nat) (store : List Nat),
      (writeIndices base idxs pos store).length = store.length := by
  intro idxs
  induction idxs with
  | nil => intro pos store; rfl
  | cons v rest ih => intro pos store; simp [writeIndices, ih]

theorem length_writeVertices_aux (off : Nat) (m : Matrix4) (r g bc a alpha : ℚ) :
    ∀ (n : Nat) (vs : List ℚ) (pos : Nat) (store : List ℚ), vs.length ≤ n →
      (writeVertices off m r g bc a alpha vs pos store).length = store.length := by
  intro n
  induction n with
  | zero =>
    intro vs pos store h
    match vs with
    | [] => rfl
    | x :: rest => simp at h
  | succ k ih =>
    intro vs pos store h
    match vs with
    | [] => rfl
    | [x] => rfl
    | [x, y] => rfl
    | x :: y :: z :: rest =>
      simp only [writeVertices]
      rw [ih rest _ _ (by simp at h; omega)]
      simp

@[simp] theorem length_writeVertices (off : Nat) (m : Matrix4) (r g bc a alpha : ℚ)
    (vs : List ℚ) (pos : Nat) (store : List ℚ) :
    (writeVertices off m r g bc a alpha vs pos store).length = store.length :=
  length_writeVertices_aux off m r g bc a alpha vs.length vs pos store (Nat.le_refl _)

@[simp] theorem length_resizeList (xs : List α) (n : Nat) (v : α) :
    (resizeList xs n v).length = n := by
  unfold resizeList
  split
  · simp; omega
  · simp; omega

theorem mem_resizeList {xs : List α} {n : Nat} {v x : α}
    (h : x ∈ resizeList xs n v) : x ∈ xs ∨ x = v := by
  unfold resizeList at h
  split at h
  · exact Or.inl (List.take_subset _ _ h)
  · rcases List.mem_append.mp h with h1 | h1
    · exact Or.inl h1
    · exact Or.inr (List.eq_of_mem_replicate h1)

/-- Case analysis of `check_batch_size`: either it leaves the batcher alone and
issues nothing, or the growth guard held, in which case it flushes and resizes
both storages by one increment. -/
theorem check_batch_size_cases (b : ColorBatcher) (d : DrawData) :
    check_batch_size b d = (b, []) ∨
    (b.vertices.length + b.batch_size < b.max_vertices ∧
     check_batch_size b d = (grownState b, (flush b d.projection).2)) := by
  simp only [check_batch_size]
  split
  · split
    · right
      rename_i hlt _
      refine ⟨hlt, ?_⟩
      rw [flush_fst]
      rfl
    · left; rfl
  · left; rfl

theorem check_batch_size_of_nogrow {b : ColorBatcher} (d : DrawData)
    (h : b.max_vertices ≤ b.vertices.length + b.batch_size) :
    check_batch_size b d = (b, []) := by
  unfold check_batch_size
  rw [if_neg (by omega)]

theorem check_batch_size_of_fits {b : ColorBatcher} (d : DrawData)
    (h1 : d.indices.length ≤ b.indices.length)
    (h2 : b.index + d.indices.length < b.indices.length) :
    check_batch_size b d = (b, []) := by
  simp only [check_batch_size]
  split
  · rw [if_neg (by omega)]
  · rfl

theorem dims_push_vertices (b : ColorBatcher) (i : List Nat) (v : List ℚ)
    (c : Color) (m : Matrix4) (a : ℚ) :
    dims (push_vertices b i v c m a) = dims b := by
  simp [dims, push_vertices_indices, push_vertices_vertices,
    push_vertices_offset, push_vertices_max, push_vertices_batch_size]

theorem dims_flush (b : ColorBatcher) (p : Matrix4) :
    dims (flush b p).1 = dims b := by
  rw [flush_fst]
  rfl

theorem dims_split_loop (d : DrawData) :
    ∀ (count i : Nat) (b : ColorBatcher), dims (split_loop d i count b).1 = dims b := by
  intro count
  induction count with
  | zero => intro i b; rfl
  | succ k ih =>
    intro i b
    simp only [split_loop]
    rw [ih, dims_flush, dims_push_vertices]

theorem dims_split_batch (b : ColorBatcher) (d : DrawData) :
    dims (split_batch b d).1 = dims b := by
  unfold split_batch
  rw [dims_split_loop]

/-- Unfolding of `push_data` through a computed `check_batch_size` result. -/
theorem push_data_of_cbs {b : ColorBatcher} {d : DrawData} {b0 : ColorBatcher}
    {ops : List GfxOp} (h : check_batch_size b d = (b0, ops)) :
    push_data b d =
      (if b0.indices.length < d.indices.length then
        let sp := split_batch b0 d
        (sp.1, ops ++ sp.2)
      else
        let next_index := b0.index + d.indices.length
        let fl1 := if b0.indices.length ≤ next_index then flush b0 d.projection else (b0, [])
        let b1 := fl1.1
        let fl2 :=
          if b1.blend ≠ d.blend then
            let f := flush b1 d.projection
            ({ f.1 with blend := d.blend }, f.2)
          else (b1, [])
        let b2 := fl2.1
        (push_vertices b2 d.indices d.vertices d.color d.matrix d.alpha,
         ops ++ fl1.2 ++ fl2.2)) := by
  unfold push_data
  rw [h]

/-- The state after `push_data` only depends on the incoming state through the
post-growth state, and its dimensions equal the post-growth dimensions. -/
theorem push_data_tail_dims (b0 : ColorBatcher) (d : DrawData) (ops : List GfxOp) :
    dims (if b0.indices.length < d.indices.length then
        let sp := split_batch b0 d
        (sp.1, ops ++ sp.2)
      else
        let next_index := b0.index + d.indices.length
        let fl1 := if b0.indices.length ≤ next_index then flush b0 d.projection else (b0, [])
        let b1 := fl1.1
        let fl2 :=
          if b1.blend ≠ d.blend then
            let f := flush b1 d.projection
            ({ f.1 with blend := d.blend }, f.2)
          else (b1, [])
        let b2 := fl2.1
        (push_vertices b2 d.indices d.vertices d.color d.matrix d.alpha,
         ops ++ fl1.2 ++ fl2.2)).1 = dims b0 := by
  split
  · simp only
    rw [dims_split_batch]
  · simp only
    rw [dims_push_vertices]
    split <;> split <;> simp [dims, flush_fst]

/-- Field and length effect of one `push_data` call: the stride, ceiling and
increment fields never change; the storages either keep their lengths or grow
by exactly one increment, and only under the growth guard. -/
theorem push_data_dims (b : ColorBatcher) (d : DrawData) :
    dims (push_data b d).1 = dims b ∨
    (b.vertices.length + b.batch_size < b.max_vertices ∧
     dims (push_data b d).1 =
       (b.vertices.length + b.batch_size,
        (b.vertices.length + b.batch_size) / b.offset,
        b.offset, b.max_vertices, b.batch_size)) := by
  rcases check_batch_size_cases b d with hc | ⟨hlt, hc⟩
  · left
    rw [push_data_of_cbs hc]
    exact push_data_tail_dims b d []
  · right
    refine ⟨hlt, ?_⟩
    rw [push_data_of_cbs hc]
    rw [push_data_tail_dims (grownState b) d (flush b d.projection).2]
    simp [dims, grownState]

theorem pushSeq_append (b : ColorBatcher) (ds : List DrawData) (d : DrawData) :
    pushSeq b (ds ++ [d]) = (push_data (pushSeq b ds) d).1 := by
  simp [pushSeq]

theorem batch_vertices_seven : batch_vertices 7 = 65520 := by decide

theorem batch_vertices_nine : batch_vertices 9 = 65529 := by decide

/-- Components of `push_data_dims`, unbundled for the capacity claims. -/
theorem push_data_cap (b : ColorBatcher) (d : DrawData) :
    (push_data b d).1.max_vertices = b.max_vertices ∧
    (push_data b d).1.offset = b.offset ∧
    b.vertices.length ≤ (push_data b d).1.vertices.length ∧
    ((push_data b d).1.vertices.length = b.vertices.length ∨
     (push_data b d).1.vertices.length < b.max_vertices) := by
  rcases push_data_dims b d with h | ⟨hlt, h⟩ <;>
    simp only [dims, Prod.mk.injEq] at h <;>
    obtain ⟨e1, e2, e3, e4, e5⟩ := h
  · exact ⟨e4, e3, Nat.le_of_eq e1.symm, Or.inl e1⟩
  · exact ⟨e4, e3, by omega, Or.inr (by omega)⟩

theorem pushSeq_cap_inv (M : Nat) (ds : List DrawData) :
    ∀ b : ColorBatcher, b.max_vertices = M → b.vertices.length ≤ M →
      (pushSeq b ds).max_vertices = M ∧ (pushSeq b ds).vertices.length ≤ M := by
  induction ds with
  | nil => intro b h1 h2; exact ⟨h1, h2⟩
  | cons d rest ih =>
    intro b h1 h2
    have hp := push_data_cap b d
    have hstep : (push_data b d).1.max_vertices = M ∧ (push_data b d).1.vertices.length ≤ M := by
      rcases hp.2.2.2 with h | h
      · exact ⟨by rw [hp.1, h1], by omega⟩
      · exact ⟨by rw [hp.1, h1], by omega⟩
    have : pushSeq b (d :: rest) = pushSeq (push_data b d).1 rest := by
      simp [pushSeq]
    rw [this]
    exact ih (push_data b d).1 hstep.1 hstep.2

/-- C4: along any sequence of `push` calls on a freshly constructed color
batcher, `capacity_vertices` never decreases from one call to the next and
never exceeds the platform ceiling. -/
theorem capacity_monotone_bounded (api : GraphicsAPI) (ds : List DrawData) (d : DrawData) :
    capacity_vertices (pushSeq (ColorBatcher.new (max_vertices api)) ds) ≤
      capacity_vertices (pushSeq (ColorBatcher.new (max_vertices api)) (ds ++ [d])) ∧
    capacity_vertices (pushSeq (ColorBatcher.new (max_vertices api)) ds) ≤ max_vertices api := by
  have hinit1 : (ColorBatcher.new (max_vertices api)).max_vertices = max_vertices api := rfl
  have hinit2 : (ColorBatcher.new (max_vertices api)).vertices.length ≤ max_vertices api := by
    show (List.replicate (batch_vertices 7) (0 : ℚ)).length ≤ max_vertices api
    rw [List.length_replicate, batch_vertices_seven]
    cases api <;> simp [max_vertices]
  have hinv := pushSeq_cap_inv (max_vertices api) ds _ hinit1 hinit2
  constructor
  · rw [pushSeq_append]
    have hp := push_data_cap (pushSeq (ColorBatcher.new (max_vertices api)) ds) d
    unfold capacity_vertices
    rw [hp.2.1]
    exact Nat.div_le_div_right hp.2.2.1
  · unfold capacity_vertices
    exact Nat.le_trans (Nat.div_le_self _ _) hinv.2

theorem pushSeq_align_inv (ds : List DrawData) :
    ∀ b : ColorBatcher, b.offset = 7 → b.batch_size % 21 = 0 →
      b.vertices.length % 21 = 0 → b.indices.length % 3 = 0 →
      (pushSeq b ds).offset = 7 ∧ (pushSeq b ds).batch_size % 21 = 0 ∧
      (pushSeq b ds).vertices.length % 21 = 0 ∧ (pushSeq b ds).indices.length % 3 = 0 := by
  induction ds with
  | nil => intro b h1 h2 h3 h4; exact ⟨h1, h2, h3, h4⟩
  | cons d rest ih =>
    intro b h1 h2 h3 h4
    have hstep : (push_data b d).1.offset = 7 ∧ (push_data b d).1.batch_size % 21 = 0 ∧
        (push_data b d).1.vertices.length % 21 = 0 ∧
        (push_data b d).1.indices.length % 3 = 0 := by
      rcases push_data_dims b d with h | ⟨hlt, h⟩ <;>
        simp only [dims, Prod.mk.injEq] at h <;>
        obtain ⟨e1, e2, e3, e4, e5⟩ := h
      · refine ⟨by omega, by omega, by omega, by omega⟩
      · refine ⟨by omega, by omega, by omega, ?_⟩
        rw [e2, h1]
        obtain ⟨k, hk⟩ := Nat.dvd_of_mod_eq_zero (n := b.vertices.length + b.batch_size)
          (m := 21) (by omega)
        rw [hk, show 21 * k = 7 * (3 * k) by ring, Nat.mul_div_cancel_left _ (by norm_num)]
        simp [Nat.mul_mod_right]
    have : pushSeq b (d :: rest) = pushSeq (push_data b d).1 rest := by
      simp [pushSeq]
    rw [this]
    exact ih (push_data b d).1 hstep.1 hstep.2.1 hstep.2.2.1 hstep.2.2.2

/-- C7: constructed batchers keep their vertex storage length divisible by the
stride (7 for the color batcher with its growth steps, 9 for the image batcher
at construction) and their index storage length divisible by 3. -/
theorem stride_alignment :
    (∀ (api : GraphicsAPI) (ds : List DrawData),
      (pushSeq (ColorBatcher.new (max_vertices api)) ds).vertices.length % 7 = 0 ∧
      (pushSeq (ColorBatcher.new (max_vertices api)) ds).indices.length % 3 = 0) ∧
    (∀ M : Nat, (ImageBatcher.new M).vertices.length % 9 = 0 ∧
      (ImageBatcher.new M).indices.length % 3 = 0) := by
  constructor
  · intro api ds
    have h := pushSeq_align_inv ds (ColorBatcher.new (max_vertices api)) rfl
      (by show batch_vertices 7 % 21 = 0; rw [batch_vertices_seven])
      (by show (List.replicate (batch_vertices 7) (0 : ℚ)).length % 21 = 0
          rw [List.length_replicate, batch_vertices_seven])
      (by show (List.replicate (batch_vertices 7 / 7) (0 : Nat)).length % 3 = 0
          rw [List.length_replicate, batch_vertices_seven])
    exact ⟨by omega, h.2.2.2⟩
  · intro M
    constructor
    · show (List.replicate (batch_vertices 9) (0 : ℚ)).length % 9 = 0
      rw [List.length_replicate, batch_vertices_nine]
    · show (List.replicate (batch_vertices 9 / 9) (0 : Nat)).length % 3 = 0
      rw [List.length_replicate, batch_vertices_nine]

/-- C5: every `flush` leaves the write cursor at 0, and a `flush` at cursor 0
is a no-op that issues no backend call at all. -/
theorem flush_resets_cursor (b : ColorBatcher) (p : Matrix4) :
    (flush b p).1.index = 0 ∧ (b.index = 0 → flush b p = (b, [])) := by
  constructor
  · rw [flush_fst]
  · intro h
    exact flush_of_zero p h

theorem push_vertices_nil (b : ColorBatcher) (c : Color) (m : Matrix4) (a : ℚ) :
    push_vertices b [] [] c m a = b := by
  cases b
  simp [push_vertices, writeIndices, writeVertices, Color.to_rgba]

theorem split_loop_zero (d : DrawData) (i : Nat) (b : ColorBatcher) :
    split_loop d i 0 b = (b, []) := rfl

/-- An iteration of `split_batch` whose chunk is empty (the request is already
exhausted) appends nothing, flushes nothing, and leaves the state unchanged. -/
theorem split_loop_empty_iteration (d : DrawData) (i : Nat) (b : ColorBatcher)
    (h0 : b.index = 0) (hd : d.indices.length ≤ i * b.indices.length) :
    split_loop d i 1 b = (b, []) := by
  simp only [split_loop]
  rw [Nat.min_eq_right (by omega : d.indices.length ≤ i * b.indices.length + b.indices.length)]
  rw [Nat.sub_eq_zero_of_le hd]
  simp only [List.range'_zero, List.map_nil, Nat.zero_mul, List.take_zero]
  rw [push_vertices_nil, flush_of_zero d.projection h0]
  rfl

@[simp] theorem drawCounts_nil : drawCounts [] = [] := rfl

@[simp] theorem drawCounts_append (l1 l2 : List GfxOp) :
    drawCounts (l1 ++ l2) = drawCounts l1 ++ drawCounts l2 := by
  simp [drawCounts]

theorem drawCounts_flush_ne {b : ColorBatcher} (p : Matrix4) (h : b.index ≠ 0) :
    drawCounts (flush b p).2 = [b.index] := by
  rw [flush_of_ne p h]
  simp [drawCounts]

/-- One iteration of the `split_batch` loop, unfolded exactly once. -/
theorem split_loop_step (d : DrawData) (i count : Nat) (b : ColorBatcher)
    (hcount : 0 < count) :
    split_loop d i count b =
      ((split_loop d (i + 1) (count - 1) (flush (push_vertices b
          ((List.range' (i * b.indices.length)
            (min (i * b.indices.length + b.indices.length) d.indices.length
              - i * b.indices.length)).map (fun v => (v - i * b.indices.length) % 2 ^ 32))
          ((d.vertices.drop (i * b.indices.length * 3)).take
            ((min (i * b.indices.length + b.indices.length) d.indices.length
              - i * b.indices.length) * 3))
          d.color d.matrix d.alpha) d.projection).1).1,
       (flush (push_vertices b
          ((List.range' (i * b.indices.length)
            (min (i * b.indices.length + b.indices.length) d.indices.length
              - i * b.indices.length)).map (fun v => (v - i * b.indices.length) % 2 ^ 32))
          ((d.vertices.drop (i * b.indices.length * 3)).take
            ((min (i * b.indices.length + b.indices.length) d.indices.length
              - i * b.indices.length) * 3))
          d.color d.matrix d.alpha) d.projection).2 ++
       (split_loop d (i + 1) (count - 1) (flush (push_vertices b
          ((List.range' (i * b.indices.length)
            (min (i * b.indices.length + b.indices.length) d.indices.length
              - i * b.indices.length)).map (fun v => (v - i * b.indices.length) % 2 ^ 32))
          ((d.vertices.drop (i * b.indices.length * 3)).take
            ((min (i * b.indices.length + b.indices.length) d.indices.length
              - i * b.indices.length) * 3))
          d.color d.matrix d.alpha) d.projection).1).2) := by
  obtain ⟨c, rfl⟩ : ∃ c, count = c + 1 := ⟨count - 1, by omega⟩
  simp only [split_loop, Nat.add_sub_cancel]

/-- Trace of `split_batch` over a request that still holds `j` full chunks at
iteration `i`: each of the `j` iterations appends one full chunk and flushes
it as one draw of a whole index storage. -/
theorem split_loop_counts (d : DrawData) (N : Nat) (hpos : 0 < N) :
    ∀ (j i : Nat) (b : ColorBatcher), b.index = 0 → b.indices.length = N →
      d.indices.length = i * N + j * N →
      drawCounts (split_loop d i (j + 1) b).2 = List.replicate j N ∧
      (split_loop d i (j + 1) b).1.index = 0 ∧
      (split_loop d i (j + 1) b).1.indices.length = N := by
  intro j
  induction j with
  | zero =>
    intro i b h0 hb hd
    rw [split_loop_empty_iteration d i b h0 (by rw [hb]; omega)]
    exact ⟨rfl, h0, hb⟩
  | succ k ih =>
    intro i b h0 hb hd
    rw [split_loop_step d i (k + 1 + 1) b (by omega)]
    simp only [Nat.add_sub_cancel]
    have hmin : min (i * b.indices.length + b.indices.length) d.indices.length
        = i * b.indices.length + b.indices.length := by
      rw [hb, hd]
      exact Nat.min_eq_left (Nat.add_le_add_left (Nat.le_mul_of_pos_left _ (by omega)) _)
    rw [hmin, Nat.add_sub_cancel_left]
    set X := push_vertices b
        ((List.range' (i * b.indices.length) b.indices.length).map
          (fun v => (v - i * b.indices.length) % 2 ^ 32))
        ((d.vertices.drop (i * b.indices.length * 3)).take (b.indices.length * 3))
        d.color d.matrix d.alpha with hX
    have hXi : X.index = N := by
      rw [hX, push_vertices_index, h0]
      simp [hb]
    have hne : X.index ≠ 0 := by
      rw [hXi]
      omega
    rw [flush_fst X d.projection]
    rw [show (flush X d.projection).2 =
        [GfxOp.setPipeline X.blend, GfxOp.bindVertexBuffer X.vertices,
         GfxOp.bindIndexBuffer X.indices, GfxOp.bindUniform d.projection,
         GfxOp.draw 0 X.index] from by rw [flush_of_ne d.projection hne]]
    have hlen : ({ X with index := 0 } : ColorBatcher).indices.length = N := by
      show X.indices.length = N
      rw [hX, push_vertices_indices, length_writeIndices, hb]
    obtain ⟨hc, hi0, hl⟩ := ih (i + 1) { X with index := 0 } rfl hlen (by rw [hd]; ring)
    refine ⟨?_, hi0, hl⟩
    rw [drawCounts_append, hc]
    rw [show drawCounts
        [GfxOp.setPipeline X.blend, GfxOp.bindVertexBuffer X.vertices,
         GfxOp.bindIndexBuffer X.indices, GfxOp.bindUniform d.projection,
         GfxOp.draw 0 X.index] = [X.index] from by simp [drawCounts]]
    rw [hXi, List.replicate_succ]
    rfl

/-- C10: a split request whose index count is an exact multiple `k * N` of the
index capacity `N` runs `k + 1` iterations; the final iteration's chunk is
empty (it appends no vertices, advances the cursor by zero, and its flush
issues nothing), so exactly `k` draws are issued, each covering one full index
storage. -/
theorem split_exact_multiple (b : ColorBatcher) (d : DrawData) (k N : Nat)
    (hb : b.indices.length = N) (h0 : b.index = 0) (hpos : 0 < N) (hk : 2 ≤ k)
    (hd : d.indices.length = k * N) :
    d.indices.length / b.indices.length + 1 = k + 1 ∧
    drawCounts (split_batch b d).2 = List.replicate k N ∧
    (split_batch b d).1.index = 0 ∧
    ∀ b' : ColorBatcher, b'.index = 0 → b'.indices.length = N →
      split_loop d k 1 b' = (b', []) := by
  have hdiv : d.indices.length / b.indices.length = k := by
    rw [hb, hd]
    exact Nat.mul_div_cancel _ hpos
  have hcounts := split_loop_counts d N hpos k 0 b h0 hb (by rw [hd]; ring)
  refine ⟨by omega, ?_, ?_, ?_⟩
  · unfold split_batch
    rw [hdiv]
    exact hcounts.1
  · unfold split_batch
    rw [hdiv]
    exact hcounts.2.1
  · intro b' h0' hb'
    exact split_loop_empty_iteration d k b' h0' (by rw [hb', hd])

/-- Witness for C10 at `k = 2`, `N = 3`. -/
theorem split_exact_multiple_witness :
    (sampleBatcher.indices.length = 3 ∧ sampleBatcher.index = 0 ∧ 0 < 3 ∧ 2 ≤ 2 ∧
     sampleSplitRequest.indices.length = 2 * 3) ∧
    (sampleSplitRequest.indices.length / sampleBatcher.indices.length + 1 = 2 + 1 ∧
     drawCounts (split_batch sampleBatcher sampleSplitRequest).2 = List.replicate 2 3 ∧
     (split_batch sampleBatcher sampleSplitRequest).1.index = 0 ∧
     ∀ b' : ColorBatcher, b'.index = 0 → b'.indices.length = 3 →
       split_loop sampleSplitRequest 2 1 b' = (b', [])) :=
  ⟨⟨by decide, by decide, by decide, by decide, by decide⟩,
   split_exact_multiple sampleBatcher sampleSplitRequest 2 3 (by decide) (by decide)
     (by decide) (by decide) (by decide)⟩

/-- C6: pushing a request whose blend mode differs from the active blend mode
(and which triggers neither growth nor split nor fullness) performs exactly one
flush before appending, and the active blend mode becomes the request's. -/
theorem blend_change_flushes (b : ColorBatcher) (d : DrawData)
    (h1 : d.indices.length ≤ b.indices.length)
    (h2 : b.index + d.indices.length < b.indices.length)
    (h3 : b.blend ≠ d.blend) :
    push_data b d =
      (push_vertices { b with index := 0, blend := d.blend } d.indices d.vertices
        d.color d.matrix d.alpha,
       (flush b d.projection).2) ∧
    (push_data b d).1.blend = d.blend := by
  have hc := check_batch_size_of_fits d h1 h2
  have key : push_data b d =
      (push_vertices { b with index := 0, blend := d.blend } d.indices d.vertices
        d.color d.matrix d.alpha,
       (flush b d.projection).2) := by
    rw [push_data_of_cbs hc]
    rw [if_neg (show ¬ b.indices.length < d.indices.length from by omega)]
    simp only [if_neg (show ¬ b.indices.length ≤ b.index + d.indices.length from by omega)]
    simp [h3, flush_fst]
  refine ⟨key, ?_⟩
  rw [key]
  exact rfl

/-- Witness for C6: two requests with distinct blend modes. -/
theorem blend_change_flushes_witness :
    (sampleBlendRequest.indices.length ≤ sampleBatcher.indices.length ∧
     sampleBatcher.index + sampleBlendRequest.indices.length < sampleBatcher.indices.length ∧
     sampleBatcher.blend ≠ sampleBlendRequest.blend) ∧
    (push_data sampleBatcher sampleBlendRequest =
      (push_vertices { sampleBatcher with index := 0, blend := sampleBlendRequest.blend }
        sampleBlendRequest.indices sampleBlendRequest.vertices sampleBlendRequest.color
        sampleBlendRequest.matrix sampleBlendRequest.alpha,
       (flush sampleBatcher sampleBlendRequest.projection).2) ∧
     (push_data sampleBatcher sampleBlendRequest).1.blend = sampleBlendRequest.blend) :=
  ⟨⟨by decide, by decide, by decide⟩,
   blend_change_flushes sampleBatcher sampleBlendRequest (by decide) (by decide) (by decide)⟩

theorem set_at_junction (l1 : List α) (a w : α) (l2 : List α) :
    (l1 ++ a :: l2).set l1.length w = l1 ++ w :: l2 := by
  induction l1 with
  | nil => rfl
  | cons x t ih => simp [List.set, ih]

theorem writeIndices_overwrite (base : Nat) :
    ∀ (idxs pre mid suf : List Nat), mid.length = idxs.length →
      writeIndices base idxs pre.length (pre ++ (mid ++ suf)) =
        pre ++ (idxs.map (fun v => (base + v) % 2 ^ 32) ++ suf) := by
  intro idxs
  induction idxs with
  | nil =>
    intro pre mid suf h
    obtain rfl : mid = [] := List.length_eq_zero.mp h
    simp [writeIndices]
  | cons v rest ih =>
    intro pre mid suf h
    match mid with
    | [] => simp at h
    | m0 :: mrest =>
      simp only [writeIndices, List.cons_append]
      rw [set_at_junction pre m0 ((base + v) % 2 ^ 32) (mrest ++ suf)]
      rw [show pre ++ ((base + v) % 2 ^ 32) :: (mrest ++ suf)
          = (pre ++ [(base + v) % 2 ^ 32]) ++ (mrest ++ suf) from by simp]
      rw [show pre.length + 1 = (pre ++ [(base + v) % 2 ^ 32]).length from by simp]
      rw [ih (pre ++ [(base + v) % 2 ^ 32]) mrest suf (by simp at h ⊢; omega)]
      simp

/-- Effect of the index-write loop started at slot 0 with enough room: the
first `idxs.length` slots are overwritten with the remapped values, the rest
of the storage is untouched. -/
theorem writeIndices_front (base : Nat) (idxs store : List Nat)
    (h : idxs.length ≤ store.length) :
    writeIndices base idxs 0 store =
      idxs.map (fun v => (base + v) % 2 ^ 32) ++ store.drop idxs.length := by
  have hsplit := List.take_append_drop idxs.length store
  have hlen : (store.take idxs.length).length = idxs.length := by
    simp [List.length_take]
    omega
  calc writeIndices base idxs 0 store
      = writeIndices base idxs ([] : List Nat).length
          ([] ++ (store.take idxs.length ++ store.drop idxs.length)) := by
        rw [hsplit]
        rfl
    _ = [] ++ (idxs.map (fun v => (base + v) % 2 ^ 32) ++ store.drop idxs.length) :=
        writeIndices_overwrite base idxs [] _ _ (by rw [hlen])
    _ = _ := by simp

/-- The chunk index slice built by `split_batch` holds exactly `0..r-1` once
the cursor offset 0 is added back by `push_vertices`. -/
theorem chunk_indices_map (s r : Nat) (h : r ≤ 2 ^ 32) :
    ((List.range' s r).map (fun v => (v - s) % 2 ^ 32)).map
        (fun v => (0 + v) % 2 ^ 32) = List.range r := by
  apply List.ext_getElem
  · simp
  · intro j h1 h2
    simp only [List.getElem_map, List.getElem_range', List.getElem_range]
    have hj : j < r := by
      simp at h2
      omega
    have h32 : (2 : Nat) ^ 32 = 4294967296 := by norm_num
    omega

theorem range_one_append_drop (N : Nat) (h : 0 < N) :
    List.range 1 ++ (List.range N).drop 1 = List.range N := by
  obtain ⟨n, rfl⟩ : ∃ n, N = n + 1 := ⟨N - 1, by omega⟩
  rw [show List.range (n + 1) = 0 :: List.map Nat.succ (List.range n)
    from List.range_succ_eq_map n]
  rfl

@[simp] theorem chunkState_index (b : ColorBatcher) (d : DrawData) (s r : Nat) :
    (chunkState b d s r).index = 0 := rfl

@[simp] theorem chunkState_blend (b : ColorBatcher) (d : DrawData) (s r : Nat) :
    (chunkState b d s r).blend = b.blend := rfl

theorem chunkState_len (b : ColorBatcher) (d : DrawData) (s r : Nat)
    (h : r ≤ b.indices.length) :
    (chunkState b d s r).indices.length = b.indices.length := by
  simp [chunkState]
  omega

/-- One full or final iteration of the `split_batch` loop from a flushed
cursor: the chunk of `r` request indices starting at position `i * N` is
remapped to `0..r-1`, written at the start of the index storage, its vertices
are transformed and written from slot 0, and the chunk is flushed as one draw
of `r` indices. -/
theorem split_loop_chunk (d : DrawData) (i count : Nat) (b : ColorBatcher) (N r : Nat)
    (hb : b.indices.length = N) (h0 : b.index = 0) (h32 : N < 2 ^ 32)
    (hrpos : 0 < r) (hcount : 0 < count)
    (hmin : min (i * N + N) d.indices.length = i * N + r) :
    split_loop d i count b =
      ((split_loop d (i + 1) (count - 1) (chunkState b d (i * N) r)).1,
       [GfxOp.setPipeline b.blend,
        GfxOp.bindVertexBuffer (chunkState b d (i * N) r).vertices,
        GfxOp.bindIndexBuffer (List.range r ++ b.indices.drop r),
        GfxOp.bindUniform d.projection,
        GfxOp.draw 0 r] ++ (split_loop d (i + 1) (count - 1) (chunkState b d (i * N) r)).2) := by
  have hrN : r ≤ N := by
    have := Nat.min_le_left (i * N + N) d.indices.length
    omega
  rw [split_loop_step d i count b hcount, hb, hmin, Nat.add_sub_cancel_left]
  set X := push_vertices b
      ((List.range' (i * N) r).map (fun v => (v - i * N) % 2 ^ 32))
      ((d.vertices.drop (i * N * 3)).take (r * 3)) d.color d.matrix d.alpha with hX
  have hidx : writeIndices 0 ((List.range' (i * N) r).map (fun v => (v - i * N) % 2 ^ 32))
      0 b.indices = List.range r ++ b.indices.drop r := by
    rw [writeIndices_front 0 _ b.indices (by simp [hb]; omega)]
    rw [chunk_indices_map (i * N) r (by omega)]
    congr 1
    congr 1
    simp
  have hXindex : X.index = r := by
    rw [hX, push_vertices_index, h0]
    simp
  have hXne : X.index ≠ 0 := by omega
  have hstate : ({ X with index := 0 } : ColorBatcher) = chunkState b d (i * N) r := by
    rw [hX]
    unfold chunkState
    simp only [push_vertices_vertices, push_vertices_indices, push_vertices_blend,
      push_vertices_offset, push_vertices_max, push_vertices_batch_size, h0,
      Nat.zero_mul, hidx]
  have hv : X.vertices = (chunkState b d (i * N) r).vertices := by
    rw [← hstate]
  have hxi : X.indices = List.range r ++ b.indices.drop r := by
    rw [hX, push_vertices_indices, h0, hidx]
  have hbl : X.blend = b.blend := by
    rw [hX, push_vertices_blend]
  rw [flush_fst X d.projection]
  rw [show (flush X d.projection).2 =
      [GfxOp.setPipeline X.blend, GfxOp.bindVertexBuffer X.vertices,
       GfxOp.bindIndexBuffer X.indices, GfxOp.bindUniform d.projection,
       GfxOp.draw 0 X.index] from by rw [flush_of_ne d.projection hXne]]
  rw [hstate, hbl, hv, hxi, hXindex]

/-- C1: a request with `2 * N + 1` indices (`N` the index capacity) and
well-formed vertices (3 scalars per index), pushed into a flushed batcher that
cannot grow, is split into exactly three flushed sub-batches: two full chunks
of `N` indices and one chunk of 1 index, each chunk's index buffer remapped to
be chunk-local starting at 0. -/
theorem split_three_flushes (b : ColorBatcher) (d : DrawData) (N : Nat)
    (hb : b.indices.length = N) (hpos : 0 < N) (h32 : N < 2 ^ 32)
    (h0 : b.index = 0)
    (hnogrow : b.max_vertices ≤ b.vertices.length + b.batch_size)
    (hdlen : d.indices.length = 2 * N + 1)
    (hvlen : d.vertices.length = 3 * d.indices.length) :
    ∃ v1 v2 v3 : List ℚ,
      (push_data b d).2 =
        [GfxOp.setPipeline b.blend, GfxOp.bindVertexBuffer v1,
         GfxOp.bindIndexBuffer (List.range N), GfxOp.bindUniform d.projection,
         GfxOp.draw 0 N,
         GfxOp.setPipeline b.blend, GfxOp.bindVertexBuffer v2,
         GfxOp.bindIndexBuffer (List.range N), GfxOp.bindUniform d.projection,
         GfxOp.draw 0 N,
         GfxOp.setPipeline b.blend, GfxOp.bindVertexBuffer v3,
         GfxOp.bindIndexBuffer (List.range N), GfxOp.bindUniform d.projection,
         GfxOp.draw 0 1] := by
  rw [push_data_of_cbs (check_batch_size_of_nogrow d hnogrow)]
  rw [if_pos (show b.indices.length < d.indices.length from by omega)]
  simp only [List.nil_append]
  unfold split_batch
  rw [hb, hdlen]
  have hq2 : 2 ≤ (2 * N + 1) / N := by
    have h1 : 2 * N / N ≤ (2 * N + 1) / N := Nat.div_le_div_right (by omega)
    rw [Nat.mul_div_cancel _ hpos] at h1
    exact h1
  have hq3 : (2 * N + 1) / N ≤ 3 := by
    have h1 : (2 * N + 1) / N ≤ 3 * N / N := Nat.div_le_div_right (by omega)
    rw [Nat.mul_div_cancel _ hpos] at h1
    exact h1
  generalize hq : (2 * N + 1) / N = q
  rw [hq] at hq2 hq3
  have hd1 : b.indices.drop N = [] := List.drop_eq_nil_of_le (by omega)
  rw [split_loop_chunk d 0 (q + 1) b N N hb h0 h32 hpos (by omega)
    (by rw [hdlen]; omega)]
  set B1 := chunkState b d (0 * N) N with hB1
  have hlen1 : B1.indices.length = N := by
    rw [hB1, chunkState_len b d (0 * N) N (by omega)]
    exact hb
  rw [split_loop_chunk d (0 + 1) (q + 1 - 1) B1 N N hlen1 (by rw [hB1]; rfl) h32 hpos
    (by omega) (by rw [hdlen]; omega)]
  set B2 := chunkState B1 d ((0 + 1) * N) N with hB2
  have hlen2 : B2.indices.length = N := by
    rw [hB2, chunkState_len B1 d ((0 + 1) * N) N (by omega)]
    exact hlen1
  rw [split_loop_chunk d (0 + 1 + 1) (q + 1 - 1 - 1) B2 N 1 hlen2 (by rw [hB2]; rfl) h32
    (by omega) (by omega) (by rw [hdlen]; omega)]
  set B3 := chunkState B2 d ((0 + 1 + 1) * N) 1 with hB3
  have hlen3 : B3.indices.length = N := by
    rw [hB3, chunkState_len B2 d ((0 + 1 + 1) * N) 1 (by omega)]
    exact hlen2
  have htrail : split_loop d (0 + 1 + 1 + 1) (q + 1 - 1 - 1 - 1) B3 = (B3, []) := by
    rcases (show q = 2 ∨ q = 3 from by omega) with h | h
    · rw [h]
      rfl
    · rw [h]
      rw [show 3 + 1 - 1 - 1 - 1 = 1 from rfl]
      exact split_loop_empty_iteration d (0 + 1 + 1 + 1) B3 (by rw [hB3]; rfl)
        (by rw [hlen3, hdlen]; omega)
  rw [htrail]
  have hB1i : B1.indices = List.range N := by
    rw [hB1]
    show List.range N ++ b.indices.drop N = List.range N
    rw [hd1]
    simp
  have hB1drop : B1.indices.drop N = [] := by
    rw [hB1i]
    exact List.drop_eq_nil_of_le (by simp)
  have hB2i : B2.indices = List.range N := by
    rw [hB2]
    show List.range N ++ B1.indices.drop N = List.range N
    rw [hB1drop]
    simp
  have hp3 : List.range 1 ++ B2.indices.drop 1 = List.range N := by
    rw [hB2i]
    exact range_one_append_drop N hpos
  rw [hd1, hp3]
  rw [show List.range N ++ ([] : List Nat) = List.range N from by simp]
  rw [show List.range N ++ B1.indices.drop N = List.range N from by rw [hB1drop]; simp]
  refine ⟨B1.vertices, B2.vertices, B3.vertices, ?_⟩
  simp only [List.cons_append, List.nil_append, List.append_nil]
  rfl

/-- Witness for C1 at index capacity 3 and a request of 7 indices. -/
theorem split_three_flushes_witness :
    (sampleBatcher.indices.length = 3 ∧ 0 < 3 ∧ 3 < 2 ^ 32 ∧ sampleBatcher.index = 0 ∧
     sampleBatcher.max_vertices ≤ sampleBatcher.vertices.length + sampleBatcher.batch_size ∧
     sampleOddSplitRequest.indices.length = 2 * 3 + 1 ∧
     sampleOddSplitRequest.vertices.length = 3 * sampleOddSplitRequest.indices.length) ∧
    (∃ v1 v2 v3 : List ℚ,
      (push_data sampleBatcher sampleOddSplitRequest).2 =
        [GfxOp.setPipeline sampleBatcher.blend, GfxOp.bindVertexBuffer v1,
         GfxOp.bindIndexBuffer (List.range 3),
         GfxOp.bindUniform sampleOddSplitRequest.projection, GfxOp.draw 0 3,
         GfxOp.setPipeline sampleBatcher.blend, GfxOp.bindVertexBuffer v2,
         GfxOp.bindIndexBuffer (List.range 3),
         GfxOp.bindUniform sampleOddSplitRequest.projection, GfxOp.draw 0 3,
         GfxOp.setPipeline sampleBatcher.blend, GfxOp.bindVertexBuffer v3,
         GfxOp.bindIndexBuffer (List.range 3),
         GfxOp.bindUniform sampleOddSplitRequest.projection, GfxOp.draw 0 1]) :=
  ⟨⟨by decide, by decide, by decide, by decide, by decide, by decide, by decide⟩,
   split_three_flushes sampleBatcher sampleOddSplitRequest 3 (by decide) (by decide)
     (by decide) (by decide) (by decide) (by decide) (by decide)⟩

theorem getD_lt {l : List α} {n : Nat} (a : α) (h : n < l.length) :
    l.getD n a = l[n] := by
  simp [List.getD_eq_getElem?_getD, List.getElem?_eq_getElem h]

theorem mem_set_cases {l : List α} {i : Nat} {a v : α} (h : v ∈ l.set i a) :
    v ∈ l ∨ (i < l.length ∧ v = a) := by
  by_cases hi : i < l.length
  · rcases List.mem_or_eq_of_mem_set h with h1 | h1
    · exact Or.inl h1
    · exact Or.inr ⟨hi, h1⟩
  · rw [List.set_eq_of_length_le (by omega)] at h
    exact Or.inl h

/-- Every value in the result of the index-write loop is either an old stored
value or one of the remapped values written at an in-bounds slot (out-of-bounds
stores are dropped, as the source would have panicked before them). -/
theorem mem_writeIndices (base : Nat) :
    ∀ (idxs : List Nat) (pos : Nat) (store : List Nat) (v : Nat),
      v ∈ writeIndices base idxs pos store →
      v ∈ store ∨ ∃ j, j < idxs.length ∧ pos + j < store.length ∧
        v = (base + idxs.getD j 0) % 2 ^ 32 := by
  intro idxs
  induction idxs with
  | nil => intro pos store v h; exact Or.inl h
  | cons x rest ih =>
    intro pos store v h
    simp only [writeIndices] at h
    rcases ih (pos + 1) (store.set pos ((base + x) % 2 ^ 32)) v h with h1 | ⟨j, hj, hp, hv⟩
    · rcases mem_set_cases h1 with h2 | ⟨h2, h3⟩
      · exact Or.inl h2
      · exact Or.inr ⟨0, by simp, by omega, by simpa using h3⟩
    · right
      rw [List.length_set] at hp
      exact ⟨j + 1, by simp; omega, by omega, by simpa using hv⟩

theorem writeIndices_values_le (M base : Nat) (idxs : List Nat) (pos : Nat)
    (store : List Nat) (hold : ∀ v ∈ store, v ≤ M)
    (hnew : ∀ j, j < idxs.length → pos + j < store.length →
      (base + idxs.getD j 0) % 2 ^ 32 ≤ M) :
    ∀ v ∈ writeIndices base idxs pos store, v ≤ M := by
  intro v hv
  rcases mem_writeIndices base idxs pos store v hv with h | ⟨j, hj, hp, hveq⟩
  · exact hold v h
  · rw [hveq]
    exact hnew j hj hp

/-- Appending a request within bounds preserves the index-value invariant:
with room for the whole request, every value written is `cursor + local index`,
below the index capacity and hence below the ceiling. -/
theorem push_vertices_append_inv (M : Nat) (hM : M < 2 ^ 32) (b2 : ColorBatcher)
    (d : DrawData) (hc : Contract d) (hinv : IndexInv M b2)
    (hroom : b2.index + d.indices.length ≤ b2.indices.length) :
    IndexInv M (push_vertices b2 d.indices d.vertices d.color d.matrix d.alpha) := by
  obtain ⟨hmax, hcur, hlen, hvals⟩ := hinv
  refine ⟨by rw [push_vertices_max]; exact hmax, ?_, ?_, ?_⟩
  · rw [push_vertices_index, push_vertices_indices, length_writeIndices]
    exact hroom
  · rw [push_vertices_indices, length_writeIndices]
    exact hlen
  · rw [push_vertices_indices]
    apply writeIndices_values_le M b2.index d.indices b2.index b2.indices hvals
    intro j hj _
    have hloc : d.indices.getD j 0 < d.indices.length := by
      have hmem : d.indices.getD j 0 ∈ d.indices := by
        rw [getD_lt 0 hj]
        exact List.getElem_mem hj
      have := hc.1 _ hmem
      rw [hc.2, Nat.mul_div_cancel_left _ (by norm_num)] at this
      exact this
    have hval : b2.index + d.indices.getD j 0 < b2.indices.length := by omega
    rw [Nat.mod_eq_of_lt (by omega)]
    omega

/-- Every iteration of the split loop preserves the index-value invariant: the
remapped chunk values written at in-bounds slots equal their own slot numbers,
below the index capacity. -/
theorem split_loop_inv (M : Nat) (hM : M < 2 ^ 32) (d : DrawData) :
    ∀ (count i : Nat) (b : ColorBatcher),
      IndexInv M b → IndexInv M (split_loop d i count b).1 := by
  intro count
  induction count with
  | zero => intro i b h; exact h
  | succ k ih =>
    intro i b hinv
    obtain ⟨hmax, hcur, hlen, hvals⟩ := hinv
    rw [split_loop_step d i (k + 1) b (by omega)]
    simp only [Nat.add_sub_cancel]
    apply ih
    rw [flush_fst]
    refine ⟨?_, ?_, ?_, ?_⟩
    · simp only [push_vertices_max]
      exact hmax
    · simp only [push_vertices_indices, length_writeIndices]
      exact Nat.zero_le _
    · simp only [push_vertices_indices, length_writeIndices]
      exact hlen
    · intro v hv
      simp only [push_vertices_indices] at hv
      refine writeIndices_values_le M b.index _ b.index b.indices hvals ?_ v hv
      intro j hj hp
      rw [getD_lt 0 hj]
      simp only [List.getElem_map, List.getElem_range']
      have h32 : (2 : Nat) ^ 32 = 4294967296 := by norm_num
      omega

theorem split_batch_inv (M : Nat) (hM : M < 2 ^ 32) (b : ColorBatcher) (d : DrawData)
    (hinv : IndexInv M b) : IndexInv M (split_batch b d).1 := by
  unfold split_batch
  exact split_loop_inv M hM d _ 0 b hinv

theorem check_batch_size_inv (M : Nat) (b : ColorBatcher) (d : DrawData)
    (hinv : IndexInv M b) : IndexInv M (check_batch_size b d).1 := by
  obtain ⟨hmax, hcur, hlen, hvals⟩ := hinv
  rcases check_batch_size_cases b d with h | ⟨hlt, h⟩
  · rw [h]
    exact ⟨hmax, hcur, hlen, hvals⟩
  · rw [h]
    refine ⟨hmax, ?_, ?_, ?_⟩
    · simp [grownState]
    · simp only [grownState, length_resizeList]
      have := Nat.div_le_self (b.vertices.length + b.batch_size) b.offset
      omega
    · intro v hv
      simp only [grownState] at hv
      rcases mem_resizeList hv with h1 | h1
      · exact hvals v h1
      · omega

/-- The index-value invariant is preserved by every `push_data` call on a
request satisfying the caller contract. -/
theorem push_data_index_inv (M : Nat) (hM : M < 2 ^ 32) (b : ColorBatcher)
    (d : DrawData) (hc : Contract d) (hinv : IndexInv M b) :
    IndexInv M (push_data b d).1 := by
  obtain ⟨b0, ops0, hceq⟩ : ∃ b0 ops0, check_batch_size b d = (b0, ops0) := ⟨_, _, rfl⟩
  have hb0 : IndexInv M b0 := by
    have := check_batch_size_inv M b d hinv
    rw [hceq] at this
    exact this
  obtain ⟨hmax, hcur, hlen, hvals⟩ := hb0
  rw [push_data_of_cbs hceq]
  split
  · exact split_batch_inv M hM b0 d ⟨hmax, hcur, hlen, hvals⟩
  · rename_i hnosplit
    simp only
    by_cases h1 : b0.indices.length ≤ b0.index + d.indices.length
    · simp only [if_pos h1, flush_fst]
      split
      · apply push_vertices_append_inv M hM _ d hc
        · exact ⟨hmax, Nat.zero_le _, hlen, hvals⟩
        · show 0 + d.indices.length ≤ b0.indices.length
          omega
      · apply push_vertices_append_inv M hM _ d hc
        · exact ⟨hmax, Nat.zero_le _, hlen, hvals⟩
        · show 0 + d.indices.length ≤ b0.indices.length
          omega
    · simp only [if_neg h1, flush_fst]
      split
      · apply push_vertices_append_inv M hM _ d hc
        · exact ⟨hmax, Nat.zero_le _, hlen, hvals⟩
        · show 0 + d.indices.length ≤ b0.indices.length
          omega
      · apply push_vertices_append_inv M hM _ d hc
        · exact ⟨hmax, hcur, hlen, hvals⟩
        · show b0.index + d.indices.length ≤ b0.indices.length
          omega

/-- C3: along any sequence of contract-abiding `push` calls on a freshly
constructed color batcher, every value in the Index Storage stays at or below
the platform ceiling. -/
theorem index_values_bounded (api : GraphicsAPI) (ds : List DrawData)
    (hc : ∀ d ∈ ds, Contract d) :
    ∀ v ∈ (pushSeq (ColorBatcher.new (max_vertices api)) ds).indices,
      v ≤ max_vertices api := by
  have hM : max_vertices api < 2 ^ 32 := by
    cases api <;> decide
  have hseq : ∀ (l : List DrawData) (b : ColorBatcher), (∀ d ∈ l, Contract d) →
      IndexInv (max_vertices api) b → IndexInv (max_vertices api) (pushSeq b l) := by
    intro l
    induction l with
    | nil => intro b _ h; exact h
    | cons d rest ih =>
      intro b hcl hinv
      rw [show pushSeq b (d :: rest) = pushSeq (push_data b d).1 rest from by simp [pushSeq]]
      exact ih _ (fun x hx => hcl x (by simp [hx]))
        (push_data_index_inv (max_vertices api) hM b d (hcl d (by simp)) hinv)
  have hinit : IndexInv (max_vertices api) (ColorBatcher.new (max_vertices api)) := by
    refine ⟨rfl, Nat.zero_le _, ?_, ?_⟩
    · show (List.replicate (batch_vertices 7 / 7) (0 : Nat)).length ≤ max_vertices api
      rw [List.length_replicate, batch_vertices_seven]
      cases api <;> decide
    · intro v hv
      have := List.eq_of_mem_replicate (show v ∈ List.replicate (batch_vertices 7 / 7) 0 from hv)
      omega
  exact (hseq ds (ColorBatcher.new (max_vertices api)) hc hinit).2.2.2

/-- Witness for C3: one contract-abiding triangle pushed on a WebGL batcher. -/
theorem index_values_bounded_witness :
    (∀ d ∈ [sampleBlendRequest], Contract d) ∧
    (∀ v ∈ (pushSeq (ColorBatcher.new (max_vertices GraphicsAPI.webGl))
        [sampleBlendRequest]).indices, v ≤ max_vertices GraphicsAPI.webGl) :=
  ⟨by decide,
   index_values_bounded GraphicsAPI.webGl [sampleBlendRequest] (by decide)⟩

/-- C9 (amended): with stride 0, `batch_vertices` terminates and returns 0
rather than raising an error (no `InvalidConfiguration` error kind exists),
and a zero stride cannot arise from batcher construction, whose vertex layouts
fix the stride at 7 (color) and 9 (image). -/
theorem zero_stride_behaviour :
    batch_vertices 0 = 0 ∧
    (∀ M : Nat, (ColorBatcher.new M).offset = 7) ∧
    (∀ M : Nat, (ImageBatcher.new M).offset = 9) :=
  ⟨batchScan_offset_zero 65535, fun _ => rfl, fun _ => rfl⟩

theorem new_vertices (M : Nat) :
    (ColorBatcher.new M).vertices = List.replicate (batch_vertices 7) 0 := rfl

theorem new_indices (M : Nat) :
    (ColorBatcher.new M).indices = List.replicate (batch_vertices 7 / 7) 0 := rfl

theorem new_index (M : Nat) : (ColorBatcher.new M).index = 0 := rfl

theorem new_max (M : Nat) : (ColorBatcher.new M).max_vertices = M := rfl

theorem new_batch_size (M : Nat) :
    (ColorBatcher.new M).batch_size = batch_vertices 7 := rfl

theorem new_offset7 (M : Nat) : (ColorBatcher.new M).offset = 7 := rfl

theorem take_replicate_of_le {α : Type} (a : α) :
    ∀ (n m : Nat), n ≤ m → (List.replicate m a).take n = List.replicate n a
  | 0, _, _ => by simp
  | n + 1, m + 1, h => by
    simp only [List.replicate, List.take]
    rw [take_replicate_of_le a n m (Nat.le_of_succ_le_succ h)]
  | n + 1, 0, h => absurd h (by omega)

theorem matrix4_mul_vector4_identity (x y z w : ℚ) :
    matrix4_mul_vector4 identityMatrix (x, y, z, w) = (x, y, z, w) := by
  simp [matrix4_mul_vector4, identityMatrix]

theorem writeVertices_identity_step (x y z : ℚ) (rest : List ℚ) (pos : Nat)
    (store : List ℚ) :
    writeVertices 7 identityMatrix 1 1 1 1 1 (x :: y :: z :: rest) pos store =
      writeVertices 7 identityMatrix 1 1 1 1 1 rest (pos + 7)
        (((((((store.set pos x).set (pos + 1) y).set (pos + 2) z).set
          (pos + 3) 1).set (pos + 4) 1).set (pos + 5) 1).set (pos + 6) 1) := by
  simp only [writeVertices, matrix4_mul_vector4_identity]
  norm_num

theorem writeVertices_nil (off : Nat) (m : Matrix4) (r g bc a al : ℚ) (pos : Nat)
    (store : List ℚ) :
    writeVertices off m r g bc a al [] pos store = store := rfl

/-- C8: pushing one triangle with the identity transform, color (1,1,1,1) and
alpha 1 into a freshly constructed batcher writes vertex records whose position
scalars equal the raw inputs exactly and whose color channels are all 1. -/
theorem identity_transform_exact (api : GraphicsAPI) (d : DrawData)
    (x1 y1 z1 x2 y2 z2 x3 y3 z3 : ℚ)
    (hi : d.indices = [0, 1, 2])
    (hv : d.vertices = [x1, y1, z1, x2, y2, z2, x3, y3, z3])
    (hm : d.matrix = identityMatrix)
    (hcol : d.color = ⟨1, 1, 1, 1⟩)
    (ha : d.alpha = 1) :
    (push_data (ColorBatcher.new (max_vertices api)) d).1.vertices.take 21 =
      [x1, y1, z1, 1, 1, 1, 1, x2, y2, z2, 1, 1, 1, 1, x3, y3, z3, 1, 1, 1, 1] := by
  have hil : (ColorBatcher.new (max_vertices api)).indices.length = 9360 := by
    rw [new_indices, List.length_replicate, batch_vertices_seven]
  have hcbs : check_batch_size (ColorBatcher.new (max_vertices api)) d
      = (ColorBatcher.new (max_vertices api), []) := by
    cases api with
    | webGl =>
      apply check_batch_size_of_nogrow
      rw [new_max, new_vertices, List.length_replicate, new_batch_size,
        batch_vertices_seven]
      decide
    | openGl =>
      apply check_batch_size_of_fits
      · rw [hi]
        rw [hil]
        decide
      · rw [new_index, hi]
        rw [hil]
        decide
  rw [push_data_of_cbs hcbs]
  rw [if_neg (show ¬ (ColorBatcher.new (max_vertices api)).indices.length
      < d.indices.length from by rw [hi, hil]; decide)]
  simp only [if_neg (show ¬ (ColorBatcher.new (max_vertices api)).indices.length
      ≤ (ColorBatcher.new (max_vertices api)).index + d.indices.length from by
    rw [new_index, hi, hil]
    decide), flush_fst]
  split
  all_goals
    simp only [push_vertices_vertices, new_offset7, new_index, new_vertices,
      hv, hm, hcol, ha, batch_vertices_seven]
    rw [writeVertices_identity_step, writeVertices_identity_step,
      writeVertices_identity_step, writeVertices_nil]
    simp only [List.set_take]
    rw [take_replicate_of_le (0 : ℚ) 21 65520 (by norm_num)]
    apply List.ext_getElem
    · simp
    · intro j h1 h2
      have hj : j < 21 := by
        simp only [List.length_set, List.length_replicate] at h1
        omega
      interval_cases j <;>
        simp [List.getElem_set, List.getElem_replicate]

/-- Witness for C8: a concrete triangle with scalars 1..9. -/
theorem identity_transform_exact_witness :
    ((⟨[0, 1, 2], [1, 2, 3, 4, 5, 6, 7, 8, 9], ⟨1, 1, 1, 1⟩, identityMatrix, 1,
        some BlendMode.normal, identityMatrix⟩ : DrawData).indices = [0, 1, 2]) ∧
    (push_data (ColorBatcher.new (max_vertices GraphicsAPI.webGl))
        (⟨[0, 1, 2], [1, 2, 3, 4, 5, 6, 7, 8, 9], ⟨1, 1, 1, 1⟩, identityMatrix, 1,
          some BlendMode.normal, identityMatrix⟩ : DrawData)).1.vertices.take 21 =
      [1, 2, 3, 1, 1, 1, 1, 4, 5, 6, 1, 1, 1, 1, 7, 8, 9, 1, 1, 1, 1] :=
  ⟨rfl,
   identity_transform_exact GraphicsAPI.webGl _ 1 2 3 4 5 6 7 8 9 rfl rfl rfl rfl rfl⟩

/-- Witness for C5 on a freshly constructed batcher (cursor 0). -/
theorem flush_resets_cursor_witness :
    (flush (ColorBatcher.new (max_vertices GraphicsAPI.webGl)) identityMatrix).1.index = 0 ∧
    flush (ColorBatcher.new (max_vertices GraphicsAPI.webGl)) identityMatrix =
      (ColorBatcher.new (max_vertices GraphicsAPI.webGl), []) :=
  ⟨(flush_resets_cursor (ColorBatcher.new (max_vertices GraphicsAPI.webGl)) identityMatrix).1,
   (flush_resets_cursor (ColorBatcher.new (max_vertices GraphicsAPI.webGl)) identityMatrix).2 rfl⟩

end Notan
